import Mathlib

/-
  Verification development for the esg-scoring-india repository.

  Shallow embedding of the two algorithmic cores:
  * src/data_pipeline/processors/entity_matcher.py  (EntityMatcher)
  * src/scoring/esg_scorer.py                       (ESGScorer)
  together with the parts of src/config.py they read.

  Numeric values carried by documents and scores are modelled as exact
  rationals.  Where a claim hinges on IEEE-754 binary64 behaviour of the
  Python runtime, a separate, explicitly float-faithful model is defined
  (see the fl64 section below).
-/

set_option maxRecDepth 16000
set_option maxHeartbeats 2000000

namespace ESGIndia

/-! ### Model of difflib.SequenceMatcher (stdlib collaborator of EntityMatcher)

EntityMatcher calls difflib.SequenceMatcher(None, variation, phrase).ratio().
The strings involved are far shorter than 200 characters, so the difflib
autojunk heuristic never marks any character as junk; with no junk the
matching-block recursion reduces to: find the longest common contiguous
block (ties broken by the lexicographically smallest start pair, which is
the pair difflib registers first), recurse on the parts to its left and to
its right, and sum the block lengths.  ratio = 2*M/T with T the sum of the
two lengths, and 1.0 when both strings are empty. -/

/-- Length of the longest common prefix of two character lists. -/
def commonPrefixLen : List Char → List Char → Nat
  | a :: as, b :: bs => if a = b then commonPrefixLen as bs + 1 else 0
  | _, _ => 0

/-- The longest common contiguous block of a and b: returns (i, j, k) with
a[i:i+k] = b[j:j+k], k maximal, ties resolved to the smallest (i, j) in
row-major order, exactly the block difflib.find_longest_match reports when
no character is junk.  (0, 0, 0) when there is no common character. -/
def findLongestMatch (a b : List Char) : Nat × Nat × Nat :=
  ((List.range a.length).flatMap fun i => (List.range b.length).map fun j => (i, j)).foldl
    (fun best ij =>
      let k := commonPrefixLen (a.drop ij.1) (b.drop ij.2)
      if k > best.2.2 then (ij.1, ij.2, k) else best)
    (0, 0, 0)

/-- Total size of all matching blocks, fuel-indexed.  Each recursive call
strictly shortens the first list, so fuel = a.length always suffices; at
fuel 0 the first list is forced empty and the true answer is 0 as well. -/
def matchingSizeFuel : Nat → List Char → List Char → Nat
  | 0, _, _ => 0
  | fuel + 1, a, b =>
    let m := findLongestMatch a b
    if m.2.2 = 0 then 0
    else
      m.2.2 + matchingSizeFuel fuel (a.take m.1) (b.take m.2.1)
        + matchingSizeFuel fuel (a.drop (m.1 + m.2.2)) (b.drop (m.2.1 + m.2.2))

/-- Sum of the sizes of the difflib matching blocks. -/
def matchingSize (a b : List Char) : Nat := matchingSizeFuel a.length a b

/-- difflib.SequenceMatcher(None, a, b).ratio(), as an exact rational. -/
def fuzzyScore (a b : List Char) : ℚ :=
  let t := a.length + b.length
  if t = 0 then 1 else (2 * matchingSize a b : ℚ) / (t : ℚ)

/-! ### Model of the re module word-boundary search used by the exact path

find_company_in_text checks `variation in text_lower` and then
re.search(r"\b" + re.escape(variation) + r"\b", text_lower, re.IGNORECASE).
Both strings are already lower-cased, so IGNORECASE is inert on the ASCII
data this system handles.  A word character is [a-zA-Z0-9_] (the texts are
ASCII). -/

/-- Python regex word character (ASCII fragment). -/
def isWordChar (c : Char) : Bool := c.isAlphanum || c == '_'

/-- Whether the character at index i exists and is a word character. -/
def charIsWordAt (text : List Char) (i : Nat) : Bool :=
  match text.get? i with
  | some c => isWordChar c
  | none => false

/-- Position p of text is a regex word boundary. -/
def boundaryAt (text : List Char) (p : Nat) : Bool :=
  (decide (0 < p) && charIsWordAt text (p - 1)) != charIsWordAt text p

/-- Python substring containment: pat occurs contiguously in text. -/
def listContains (pat text : List Char) : Bool :=
  (List.range (text.length + 1)).any fun p => pat.isPrefixOf (text.drop p)

/-- re.search of word-bounded pat inside text succeeds: some occurrence of
pat has a word boundary immediately before and immediately after it. -/
def wordBoundedOccurs (pat text : List Char) : Bool :=
  (List.range (text.length + 1)).any fun p =>
    pat.isPrefixOf (text.drop p) && boundaryAt text p && boundaryAt text (p + pat.length)

/-! ### EntityMatcher.find_company_in_text -/

/-- A match result: (company_id, matched_text, confidence_score). -/
abbrev MatchResult := Nat × String × ℚ

/-- Python text_lower.split(): split on whitespace runs, dropping empties. -/
def splitWords (s : String) : List String :=
  (s.split Char.isWhitespace).filter fun w => w ≠ ""

/-- The window phrases of the fuzzy path: for i in range(len(words)), for
j in range(i+1, min(i+4, len(words)+1)), the phrase " ".join(words[i:j]),
in exactly that iteration order. -/
def phraseCandidates (ws : List String) : List String :=
  (List.range ws.length).flatMap fun i =>
    (List.range (min (i + 4) (ws.length + 1) - (i + 1))).map fun t =>
      String.intercalate " " ((ws.drop i).take (t + 1))

/-- The fuzzy-matching inner loops for one variation: scan all 1-3 word
phrases, recording a phrase when its ratio exceeds 0.8 and the running
highest confidence.  State is (best_match, highest_confidence). -/
def fuzzyScan (tl : String) (v : String) (cid : Nat)
    (st : Option MatchResult × ℚ) : Option MatchResult × ℚ :=
  (phraseCandidates (splitWords tl)).foldl
    (fun acc phrase =>
      let sim := fuzzyScore v.toList phrase.toList
      if sim > 8/10 ∧ sim > acc.2 then (some (cid, phrase, sim), sim) else acc)
    st

/-- One iteration of the variation loop of find_company_in_text.  The exact
path records (cid, v, 0.95) and skips the fuzzy loops (continue) only when
the word-bounded occurrence test passes and 0.95 beats the running highest
confidence; in every other case control falls through to the fuzzy loops. -/
def stepVariation (tl : String) (st : Option MatchResult × ℚ)
    (pr : String × Nat) : Option MatchResult × ℚ :=
  if listContains pr.1.toList tl.toList && wordBoundedOccurs pr.1.toList tl.toList
      && decide ((95/100 : ℚ) > st.2) then
    (some (pr.2, pr.1, 95/100), 95/100)
  else fuzzyScan tl pr.1 pr.2 st

/-- EntityMatcher.find_company_in_text.  The name_variations dict is
modelled as an association list in dict insertion order; `if not text`
is the Python falsy test, which for the string argument means "". -/
def find_company_in_text (nameVariations : List (String × Nat))
    (text : String) : Option MatchResult :=
  if text = "" then none
  else
    let tl := text.toLower
    let res := nameVariations.foldl (stepVariation tl) (none, 0)
    if res.2 > 7/10 then res.1 else none

/-! ### EntityMatcher._generate_name_variations and the variation index -/

/-- The legal suffix list of _generate_name_variations, in source order. -/
def legalSuffixes : List String :=
  ["Limited", "Ltd", "Corporation", "Corp", "Inc", "Company", "Co"]

/-- The hard-coded abbreviations dict of _generate_name_variations, in
source (insertion) order. -/
def abbreviationTable : List (String × List String) :=
  [("Infosys", ["INFY"]),
   ("Tata Consultancy Services", ["TCS"]),
   ("Reliance Industries", ["RIL"]),
   ("State Bank of India", ["SBI"]),
   ("HDFC Bank", ["HDFC"]),
   ("ICICI Bank", ["ICICI"]),
   ("Bharti Airtel", ["Airtel"]),
   ("Oil and Natural Gas Corporation", ["ONGC"]),
   ("Indian Oil Corporation", ["IOC"]),
   ("Mahindra & Mahindra", ["M&M", "Mahindra"])]

/-- EntityMatcher._generate_name_variations.  Python str.replace removes
every occurrence of the matched " "+suffix, not only the trailing one;
String.replace has the same all-occurrences semantics.  list(set(...)) is
modelled by dedup; the iteration order of a Python set is implementation
defined, and no theorem below depends on the order of this list, only on
membership. -/
def generate_name_variations (company_name symbol : String) : List String :=
  let variations := [symbol, company_name]
  let stripped := legalSuffixes.find? fun sfx => company_name.endsWith (" " ++ sfx)
  let base_name :=
    match stripped with
    | some sfx => company_name.replace (" " ++ sfx) ""
    | none => company_name
  let variations :=
    match stripped with
    | some _ => variations ++ [base_name]
    | none => variations
  let variations :=
    variations
      ++ (if base_name.endsWith "Ltd" then [] else [base_name ++ " Ltd"])
      ++ (if base_name.endsWith "Limited" then [] else [base_name ++ " Limited"])
  let variations := abbreviationTable.foldl
    (fun vs entry =>
      if listContains entry.1.toLower.toList company_name.toLower.toList then
        vs ++ entry.2
      else vs)
    variations
  let ws := splitWords base_name
  let variations :=
    if ws.length > 2 then
      variations ++ [String.intercalate " " (ws.take 2), (ws.getD 0 "") ++ " " ++ ws.getLastD ""]
    else variations
  variations.dedup

/-- A company row as read by EntityMatcher._load_companies. -/
structure CompanyRec where
  id : Nat
  symbol : String
  name : String
  deriving DecidableEq

/-- Python dict insertion: overwrite the value in place if the key exists,
append at the end otherwise. -/
def dictInsert (m : List (String × Nat)) (k : String) (v : Nat) : List (String × Nat) :=
  if m.any fun p => p.1 == k then
    m.map fun p => if p.1 == k then (k, v) else p
  else m ++ [(k, v)]

/-- EntityMatcher._load_companies: the name_variations dict, mapping each
lower-cased variation of each active company to its company id, in dict
insertion order (last writer wins on collisions). -/
def buildVariationIndex (companies : List CompanyRec) : List (String × Nat) :=
  companies.foldl
    (fun idx c =>
      (generate_name_variations c.name c.symbol).foldl
        (fun idx v => dictInsert idx v.toLower c.id) idx)
    []

/-! ### ESGScorer.calculate_company_score (exact-rational model)

The db query (company_id filter and the 365-day published_date window) is
the storage collaborator; the model takes the list of selected documents
as input.  Sentiment and relevance values are exact rationals here; the
binary64-faithful model needed by the borderline rounding claim follows
further below.  The guard `if doc.esg_topics and doc.sentiment_score` is
the Python truthiness test: it also rejects an empty topics dict and a
sentiment of exactly 0.0, which is modelled faithfully. -/

/-- The fields of a Document read by the scorer. -/
structure ScoreInput where
  sentiment_score : Option ℚ
  esg_topics : Option (List (String × ℚ))
  deriving DecidableEq

/-- Python dict.get(k, d) on the topics mapping (keys are unique). -/
def topicsGetD (m : List (String × ℚ)) (k : String) (d : ℚ) : ℚ :=
  match m.find? fun p => p.1 == k with
  | some p => p.2
  | none => d

/-- The env/social/gov score lists built by the document loop of
calculate_company_score, in document order. -/
def pillarContributions : List ScoreInput → List ℚ × List ℚ × List ℚ
  | [] => ([], [], [])
  | d :: ds =>
    let rest := pillarContributions ds
    match d.esg_topics, d.sentiment_score with
    | some topics, some s =>
      if topics ≠ [] ∧ s ≠ 0 then
        let base := (s + 1) * 5
        let e := topicsGetD topics "E" 0
        let so := topicsGetD topics "S" 0
        let g := topicsGetD topics "G" 0
        ((if e > 3/10 then [base * e] else []) ++ rest.1,
         (if so > 3/10 then [base * so] else []) ++ rest.2.1,
         (if g > 3/10 then [base * g] else []) ++ rest.2.2)
      else rest
    | _, _ => rest

/-- np.mean on a nonempty list, idealized as the exact arithmetic mean. -/
def listMean (l : List ℚ) : ℚ := l.sum / (l.length : ℚ)

/-- Round-half-to-even to an integer (the rounding of Python round). -/
def roundHalfEven (q : ℚ) : ℤ :=
  let f := q.floor
  let r := q - mkRat f 1
  if r < 1/2 then f
  else if (1/2 : ℚ) < r then f + 1
  else if f % 2 = 0 then f else f + 1

/-- Python round(x, 2) on an exact rational value. -/
def round2 (q : ℚ) : ℚ := (roundHalfEven (q * 100) : ℚ) / 100

/-- One weight triple of Config.SECTOR_WEIGHTS. -/
structure PillarWeights where
  E : ℚ
  S : ℚ
  G : ℚ
  deriving DecidableEq

/-- The weight profile of the "default" key of Config.SECTOR_WEIGHTS. -/
def defaultWeights : PillarWeights := ⟨33/100, 33/100, 34/100⟩

/-- Config.SECTOR_WEIGHTS from src/config.py, in source order. -/
def SECTOR_WEIGHTS : List (String × PillarWeights) :=
  [("Oil & Gas", ⟨5/10, 3/10, 2/10⟩),
   ("Banking", ⟨2/10, 4/10, 4/10⟩),
   ("IT Services", ⟨3/10, 4/10, 3/10⟩),
   ("Pharmaceuticals", ⟨4/10, 4/10, 2/10⟩),
   ("Automotive", ⟨45/100, 35/100, 2/10⟩),
   ("Steel", ⟨5/10, 3/10, 2/10⟩),
   ("Cement", ⟨5/10, 3/10, 2/10⟩),
   ("Telecommunications", ⟨25/100, 35/100, 4/10⟩),
   ("Power", ⟨5/10, 25/100, 25/100⟩),
   ("default", defaultWeights)]

/-- self.sector_weights.get(company.sector, self.sector_weights["default"]):
a missing sector (None) or an unknown sector string falls back to the
default profile. -/
def lookupSectorWeights (sector : Option String) : PillarWeights :=
  match sector with
  | none => defaultWeights
  | some s =>
    match SECTOR_WEIGHTS.find? fun p => p.1 == s with
    | some p => p.2
    | none => defaultWeights

/-- The result dict of calculate_company_score. -/
structure ScoreResult where
  E : ℚ
  S : ℚ
  G : ℚ
  composite : ℚ
  deriving DecidableEq

/-- ESGScorer.calculate_company_score over the selected documents of the
company, with real arithmetic idealized as exact rationals. -/
def calculate_company_score (documents : List ScoreInput) (sector : Option String) :
    ScoreResult :=
  if documents = [] then ⟨5, 5, 5, 5⟩
  else
    let c := pillarContributions documents
    let env_score := if c.1 = [] then 5 else listMean c.1
    let social_score := if c.2.1 = [] then 5 else listMean c.2.1
    let gov_score := if c.2.2 = [] then 5 else listMean c.2.2
    let w := lookupSectorWeights sector
    let composite := env_score * w.E + social_score * w.S + gov_score * w.G
    ⟨round2 env_score, round2 social_score, round2 gov_score, round2 composite⟩

/-! ### Binary64 model of the Python float arithmetic of the scorer

The testable property about the 4.505 composite is a borderline rounding
case: the exact value 4.505 would round half-to-even to 4.50, while the
binary64 value Python actually computes is slightly above 4.505 and rounds
to 4.51.  To settle that claim faithfully, floats are modelled as the
exact rationals they denote and every arithmetic step rounds its exact
result to the nearest binary64 value (53-bit significand, ties to even).
All quantities in this development lie far inside the normal range, so
subnormals, overflow and NaN never arise. -/

/-- 2 raised to an integer exponent, as a rational. -/
def pow2 (e : ℤ) : ℚ :=
  if 0 ≤ e then mkRat (2 ^ e.toNat) 1 else mkRat 1 (2 ^ (-e).toNat)

/-- Base-2 logarithm on naturals (floor), fuel-structural so that it
reduces on large literals; fuel n suffices since n is halved each step. -/
def natLog2F : Nat → Nat → Nat
  | 0, _ => 0
  | fuel + 1, n => if n ≤ 1 then 0 else natLog2F fuel (n / 2) + 1

/-- Floor of log2 n (0 for n = 0). -/
def natLog2 (n : Nat) : Nat := natLog2F n n

/-- Largest e with 2^e less than or equal to q, for positive q. -/
def floorLog2 (q : ℚ) : ℤ :=
  let l : ℤ := (natLog2 q.num.natAbs : ℤ) - (natLog2 q.den : ℤ)
  if pow2 (l + 1) ≤ q then l + 1
  else if pow2 l ≤ q then l
  else l - 1

/-- Round an exact rational to the nearest binary64 value (normal range),
ties to even, returned as the exact rational the float denotes. -/
def fl64 (q : ℚ) : ℚ :=
  if q = 0 then 0
  else
    let x := |q|
    let e := floorLog2 x
    let m := roundHalfEven (x * pow2 (52 - e))
    let r := mkRat m 1 * pow2 (e - 52)
    if q < 0 then -r else r

/-- Python float addition. -/
def pyAdd (x y : ℚ) : ℚ := fl64 (x + y)

/-- Python float multiplication. -/
def pyMul (x y : ℚ) : ℚ := fl64 (x * y)

/-- Python float true division. -/
def pyDiv (x y : ℚ) : ℚ := fl64 (x / y)

/-- Python round(x, 2) on a float: the exact binary value is rounded to
two decimal digits (ties to even), and the resulting decimal is converted
back to the nearest float. -/
def pyRound2 (x : ℚ) : ℚ := fl64 ((roundHalfEven (x * 100) : ℚ) / 100)

/-- np.mean of a nonempty list of floats: sum the elements and divide by
the length in float arithmetic.  numpy sums pairwise, which coincides with
left-to-right summation for the short lists this model is applied to. -/
def npMean64 (l : List ℚ) : ℚ := pyDiv (l.foldl pyAdd 0) (l.length : ℚ)

/-- The env/social/gov score lists of the document loop, with every
arithmetic step performed in binary64 (document field values are
themselves float values, i.e. fl64-images). -/
def pillarContributions64 : List ScoreInput → List ℚ × List ℚ × List ℚ
  | [] => ([], [], [])
  | d :: ds =>
    let rest := pillarContributions64 ds
    match d.esg_topics, d.sentiment_score with
    | some topics, some s =>
      if topics ≠ [] ∧ s ≠ 0 then
        let base := pyMul (pyAdd s 1) 5
        let e := topicsGetD topics "E" 0
        let so := topicsGetD topics "S" 0
        let g := topicsGetD topics "G" 0
        ((if e > fl64 (3/10) then [pyMul base e] else []) ++ rest.1,
         (if so > fl64 (3/10) then [pyMul base so] else []) ++ rest.2.1,
         (if g > fl64 (3/10) then [pyMul base g] else []) ++ rest.2.2)
      else rest
    | _, _ => rest

/-- The sector weight table as the binary64 values of its literals. -/
def lookupSectorWeights64 (sector : Option String) : PillarWeights :=
  let w := lookupSectorWeights sector
  ⟨fl64 w.E, fl64 w.S, fl64 w.G⟩

/-- ESGScorer.calculate_company_score with binary64-faithful arithmetic;
the composite is the left-associated weighted sum exactly as written in
the source. -/
def calculate_company_score64 (documents : List ScoreInput) (sector : Option String) :
    ScoreResult :=
  if documents = [] then ⟨5, 5, 5, 5⟩
  else
    let c := pillarContributions64 documents
    let env_score := if c.1 = [] then 5 else npMean64 c.1
    let social_score := if c.2.1 = [] then 5 else npMean64 c.2.1
    let gov_score := if c.2.2 = [] then 5 else npMean64 c.2.2
    let w := lookupSectorWeights64 sector
    let composite := pyAdd (pyAdd (pyMul env_score w.E) (pyMul social_score w.S))
      (pyMul gov_score w.G)
    ⟨pyRound2 env_score, pyRound2 social_score, pyRound2 gov_score, pyRound2 composite⟩

/-! ### EntityMatcher.match_news_to_companies

The db is modelled as the list of document rows in query order.  The
query filter (doc_type == news, company_id is null) plus limit selects
the first `limit` selectable rows; rows beyond the budget and rows
failing the filter are untouched.  All updates live in the session and
are persisted by the single commit at the end of the batch; the
fault-injected variant below models an exception raised while processing
one of the selected documents, answered by db.rollback() and re-raise. -/

/-- The fields of a Document used by the attribution batch. -/
structure DocumentRec where
  doc_type : String
  company_id : Option Nat
  confidence_score : Option ℚ
  title : Option String
  content : Option String
  deriving DecidableEq

/-- The selection predicate of the batch query:
doc_type == news and company_id is null. -/
def selectable (d : DocumentRec) : Bool :=
  d.doc_type == "news" && d.company_id.isNone

/-- Per-document match attempt: the title (None coerced to "") first and,
only when that finds nothing and the content is truthy (present and
nonempty), the first 500 characters of the content. -/
def attemptMatch (nameVariations : List (String × Nat)) (d : DocumentRec) :
    Option MatchResult :=
  match find_company_in_text nameVariations (d.title.getD "") with
  | some m => some m
  | none =>
    match d.content with
    | some c => if c ≠ "" then find_company_in_text nameVariations (c.take 500) else none
    | none => none

/-- Processing of one selected document: attribute it (set company_id and
confidence_score) exactly when the match confidence exceeds 0.8; the
Bool records whether matched_count was incremented. -/
def processDoc (nameVariations : List (String × Nat)) (d : DocumentRec) :
    DocumentRec × Bool :=
  match attemptMatch nameVariations d with
  | some (cid, _, conf) =>
    if conf > 8/10 then
      ({ d with company_id := some cid, confidence_score := some conf }, true)
    else (d, false)
  | none => (d, false)

/-- The batch loop: walk the rows in query order with the remaining limit
as budget, processing each selectable row while budget remains; returns
the updated rows and matched_count. -/
def runBatchAux (nameVariations : List (String × Nat)) :
    Nat → List DocumentRec → List DocumentRec × Nat
  | _, [] => ([], 0)
  | 0, d :: ds => (d :: ds, 0)
  | b + 1, d :: ds =>
    if selectable d then
      let p := processDoc nameVariations d
      let r := runBatchAux nameVariations b ds
      (p.1 :: r.1, (if p.2 then 1 else 0) + r.2)
    else
      let r := runBatchAux nameVariations (b + 1) ds
      (d :: r.1, r.2)

/-- EntityMatcher.match_news_to_companies on a fault-free run: the updated
(committed) db and the returned matched_count. -/
def match_news_to_companies (nameVariations : List (String × Nat))
    (db : List DocumentRec) (limit : Nat) : List DocumentRec × Nat :=
  runBatchAux nameVariations limit db

/-- The batch loop with an injected processing fault: `failAt = some k`
raises while the k-th selected document (counting from procIdx) is being
processed.  Session updates accumulated so far are simply not returned:
they exist only in the uncommitted session. -/
def runBatchAuxF (nameVariations : List (String × Nat)) (failAt : Option Nat) :
    Nat → Nat → List DocumentRec → Except Unit (List DocumentRec × Nat)
  | _, _, [] => .ok ([], 0)
  | _, 0, d :: ds => .ok (d :: ds, 0)
  | procIdx, b + 1, d :: ds =>
    if selectable d then
      if failAt = some procIdx then .error ()
      else
        match runBatchAuxF nameVariations failAt (procIdx + 1) b ds with
        | .error e => .error e
        | .ok (ds', n) =>
          let p := processDoc nameVariations d
          .ok (p.1 :: ds', (if p.2 then 1 else 0) + n)
    else
      match runBatchAuxF nameVariations failAt procIdx (b + 1) ds with
      | .error e => .error e
      | .ok (ds', n) => .ok (d :: ds', n)

/-- match_news_to_companies under the fault model: on success the session
is committed (the updated rows become the persisted db) and the count is
returned; on any processing error db.rollback() discards the session and
the error is re-raised, so the persisted db is returned unchanged. -/
def match_news_fault (nameVariations : List (String × Nat))
    (db : List DocumentRec) (limit : Nat) (failAt : Option Nat) :
    List DocumentRec × Except Unit Nat :=
  match runBatchAuxF nameVariations failAt 0 limit db with
  | .error e => (db, .error e)
  | .ok (docs, n) => (docs, .ok n)

/-! ### Helper lemmas: the state of the variation loop of find_company_in_text -/

/-- States reachable by the variation loop: either nothing was recorded yet
(and the running highest confidence is 0), or the best match carries
exactly the running highest confidence, which exceeds 0.8. -/
def GoodState (st : Option MatchResult × ℚ) : Prop :=
  (st.1 = none ∧ st.2 = 0) ∨ ∃ r, st.1 = some r ∧ r.2.2 = st.2 ∧ (8 : ℚ)/10 < st.2

theorem foldl_snd_mono {α : Type} {f : Option MatchResult × ℚ → α → Option MatchResult × ℚ}
    (hf : ∀ st x, st.2 ≤ (f st x).2) :
    ∀ (l : List α) (st : Option MatchResult × ℚ), st.2 ≤ (l.foldl f st).2 := by
  intro l
  induction l with
  | nil => intro st; exact le_refl _
  | cons x xs ih => intro st; exact le_trans (hf st x) (ih (f st x))

theorem foldl_pres {α : Type} {P : Option MatchResult × ℚ → Prop}
    {f : Option MatchResult × ℚ → α → Option MatchResult × ℚ}
    (hf : ∀ st x, P st → P (f st x)) :
    ∀ (l : List α) (st : Option MatchResult × ℚ), P st → P (l.foldl f st) := by
  intro l
  induction l with
  | nil => intro st h; exact h
  | cons x xs ih => intro st h; exact ih (f st x) (hf st x h)

theorem fuzzyScan_snd_le (tl v : String) (cid : Nat) (st : Option MatchResult × ℚ) :
    st.2 ≤ (fuzzyScan tl v cid st).2 := by
  apply foldl_snd_mono
  intro st x
  dsimp only
  split
  · next h => exact le_of_lt h.2
  · exact le_refl _

theorem fuzzyScan_good (tl v : String) (cid : Nat) (st : Option MatchResult × ℚ)
    (h : GoodState st) : GoodState (fuzzyScan tl v cid st) := by
  apply foldl_pres _ _ _ h
  intro st x hst
  dsimp only
  split
  · next hc => exact Or.inr ⟨_, rfl, rfl, hc.1⟩
  · exact hst

theorem stepVariation_snd_le (tl : String) (st : Option MatchResult × ℚ)
    (pr : String × Nat) : st.2 ≤ (stepVariation tl st pr).2 := by
  unfold stepVariation
  split
  · next h =>
    have h2 := (Bool.and_eq_true _ _).mp h |>.2
    exact le_of_lt (of_decide_eq_true h2)
  · exact fuzzyScan_snd_le tl pr.1 pr.2 st

theorem stepVariation_good (tl : String) (st : Option MatchResult × ℚ)
    (pr : String × Nat) (h : GoodState st) : GoodState (stepVariation tl st pr) := by
  unfold stepVariation
  split
  · exact Or.inr ⟨_, rfl, rfl, by norm_num⟩
  · exact fuzzyScan_good tl pr.1 pr.2 st h

theorem variationLoop_good (vars : List (String × Nat)) (tl : String) :
    GoodState (vars.foldl (stepVariation tl) (none, 0)) :=
  foldl_pres (fun st x => stepVariation_good tl st x) vars (none, 0) (Or.inl ⟨rfl, rfl⟩)

theorem stepVariation_hit (tl : String) (st : Option MatchResult × ℚ)
    (v : String) (cid : Nat)
    (h : (listContains v.toList tl.toList && wordBoundedOccurs v.toList tl.toList) = true) :
    (95 : ℚ)/100 ≤ (stepVariation tl st (v, cid)).2 := by
  by_cases hq : (95 : ℚ)/100 > st.2
  · have hcond : (listContains v.toList tl.toList && wordBoundedOccurs v.toList tl.toList
        && decide ((95 : ℚ)/100 > st.2)) = true := by
      rw [Bool.and_eq_true]
      exact ⟨h, decide_eq_true hq⟩
    simp only [stepVariation, hcond, if_true]
    exact le_refl _
  · exact le_trans (le_of_not_lt hq) (stepVariation_snd_le tl st (v, cid))

theorem variationLoop_hit (tl : String) (v : String) (cid : Nat)
    (h : (listContains v.toList tl.toList && wordBoundedOccurs v.toList tl.toList) = true) :
    ∀ (l : List (String × Nat)) (st : Option MatchResult × ℚ), (v, cid) ∈ l →
      (95 : ℚ)/100 ≤ (l.foldl (stepVariation tl) st).2 := by
  intro l
  induction l with
  | nil => intro st hm; cases hm
  | cons x xs ih =>
    intro st hm
    rcases List.mem_cons.mp hm with heq | htl
    · subst heq
      exact le_trans (stepVariation_hit tl st v cid h)
        (foldl_snd_mono (fun st x => stepVariation_snd_le tl st x) xs _)
    · exact ih (stepVariation tl st x) htl

theorem boundaryAt_nil (p : Nat) : boundaryAt [] p = false := by
  simp [boundaryAt, charIsWordAt]

theorem wordBoundedOccurs_nil (pat : List Char) : wordBoundedOccurs pat [] = false := by
  simp [wordBoundedOccurs, boundaryAt_nil]

theorem listContains_of_wordBounded {pat text : List Char}
    (h : wordBoundedOccurs pat text = true) : listContains pat text = true := by
  rcases List.any_eq_true.mp h with ⟨p, hp, hcond⟩
  rcases (Bool.and_eq_true _ _).mp hcond with ⟨hcond2, _⟩
  rcases (Bool.and_eq_true _ _).mp hcond2 with ⟨hpre, _⟩
  exact List.any_eq_true.mpr ⟨p, hp, hpre⟩

theorem toLower_empty_toList : ("" : String).toLower.toList = [] := by
  with_unfolding_all rfl

/-! ### Claim theorems for the Matcher -/

/-- C5: find_company_in_text never returns a match whose confidence is at
or below the global acceptance floor 0.7: every returned result has
confidence strictly above 0.7. -/
theorem find_company_confidence_above_global_floor
    (vars : List (String × Nat)) (text : String) (r : MatchResult)
    (h : find_company_in_text vars text = some r) : (7 : ℚ)/10 < r.2.2 := by
  unfold find_company_in_text at h
  split at h
  · cases h
  · dsimp only at h
    split at h
    · next hgt =>
      rcases variationLoop_good vars text.toLower with ⟨hnone, _⟩ | ⟨r', hsome, hconf, _⟩
      · rw [hnone] at h; cases h
      · rw [hsome] at h
        cases h
        rw [hconf]
        exact hgt
    · cases h

/-- C5 witness: on a concrete index and text the matcher returns the exact
match (1, tcs, 0.95), whose confidence exceeds 0.7. -/
theorem find_company_confidence_above_global_floor_witness : (7 : ℚ)/10 < (95 : ℚ)/100 :=
  find_company_confidence_above_global_floor [("tcs", 1)] "tcs news" (1, "tcs", 95/100)
    (by with_unfolding_all rfl)

/-- C10: on empty (Python-falsy) text the matcher returns None, and every
returned match has confidence strictly above 0.8 (the exact path records
0.95 and the fuzzy path only records similarities above 0.8), so the final
0.7 acceptance guard is never the binding constraint. -/
theorem find_company_match_confidence_above_batch_floor :
    (∀ vars : List (String × Nat), find_company_in_text vars "" = none) ∧
    ∀ (vars : List (String × Nat)) (text : String) (r : MatchResult),
      find_company_in_text vars text = some r → (8 : ℚ)/10 < r.2.2 := by
  constructor
  · intro vars; rfl
  · intro vars text r h
    unfold find_company_in_text at h
    split at h
    · cases h
    · dsimp only at h
      split at h
      · rcases variationLoop_good vars text.toLower with ⟨hnone, _⟩ | ⟨r', hsome, hconf, h8⟩
        · rw [hnone] at h; cases h
        · rw [hsome] at h
          cases h
          rw [hconf]
          exact h8
      · cases h

/-- C10 witness: a concrete returned match has confidence above 0.8. -/
theorem find_company_match_confidence_above_batch_floor_witness : (8 : ℚ)/10 < (95 : ℚ)/100 :=
  find_company_match_confidence_above_batch_floor.2 [("qq", 3)] "qq up" (3, "qq", 95/100)
    (by with_unfolding_all rfl)

/-- C4 (amended): if a variation v (for example a lower-cased company
symbol) is in the index and occurs word-bounded in the lower-cased text,
find_company_in_text returns a match, and its confidence is at least 0.95.
The original claim (that the match is that company at exactly 0.95) fails
because the fuzzy path of another variation can exceed 0.95 and win. -/
theorem find_company_symbol_standalone_confidence_ge
    (vars : List (String × Nat)) (text : String) (v : String) (cid : Nat)
    (hmem : (v, cid) ∈ vars)
    (hocc : wordBoundedOccurs v.toList text.toLower.toList = true) :
    ∃ r, find_company_in_text vars text = some r ∧ (95 : ℚ)/100 ≤ r.2.2 := by
  have hand : (listContains v.toList text.toLower.toList
      && wordBoundedOccurs v.toList text.toLower.toList) = true := by
    rw [Bool.and_eq_true]
    exact ⟨listContains_of_wordBounded hocc, hocc⟩
  by_cases htext : text = ""
  · subst htext
    rw [toLower_empty_toList, wordBoundedOccurs_nil] at hocc
    cases hocc
  · have h95 : (95 : ℚ)/100 ≤ (vars.foldl (stepVariation text.toLower) (none, 0)).2 :=
      variationLoop_hit text.toLower v cid hand vars (none, 0) hmem
    rcases variationLoop_good vars text.toLower with ⟨_, hzero⟩ | ⟨r, hsome, hconf, _⟩
    · rw [hzero] at h95
      norm_num at h95
    · refine ⟨r, ?_, ?_⟩
      · unfold find_company_in_text
        rw [if_neg htext]
        dsimp only
        rw [if_pos (lt_of_lt_of_le (by norm_num) h95), hsome]
      · rw [hconf]
        exact h95

/-- C4 witness: a concrete instance of the amended claim. -/
theorem find_company_symbol_standalone_confidence_ge_witness :
    ∃ r, find_company_in_text [("tcs", 7)] "TCS wins" = some r ∧ (95 : ℚ)/100 ≤ r.2.2 :=
  find_company_symbol_standalone_confidence_ge [("tcs", 7)] "TCS wins" "tcs" 7
    (List.mem_singleton.mpr rfl) (by with_unfolding_all rfl)

/-- C4 counterexample: with companies (1, TCS, TCS) and (2, QQ, Industries)
loaded, the title TCS Industriesz contains the symbol TCS as a standalone
word-bounded token, yet find_company_in_text does not return company 1 at
confidence 0.95: the fuzzy path scores the phrase industriesz against the
variation industries at 20/21 (difflib ratio, about 0.952), which beats
0.95, so company 2 is returned with confidence 20/21. -/
theorem find_company_symbol_exact_not_returned_cex :
    ("tcs", 1) ∈ buildVariationIndex [⟨1, "TCS", "TCS"⟩, ⟨2, "QQ", "Industries"⟩]
    ∧ wordBoundedOccurs "tcs".toList ("TCS Industriesz" : String).toLower.toList = true
    ∧ find_company_in_text (buildVariationIndex [⟨1, "TCS", "TCS"⟩, ⟨2, "QQ", "Industries"⟩])
        "TCS Industriesz" = some (2, "industriesz", 20/21)
    ∧ (2 : Nat) ≠ 1 ∧ (20 : ℚ)/21 ≠ 95/100 := by
  refine ⟨?_, ?_, ?_, ?_, ?_⟩
  · have : buildVariationIndex [⟨1, "TCS", "TCS"⟩, ⟨2, "QQ", "Industries"⟩]
        = [("tcs", 1), ("tcs ltd", 1), ("tcs limited", 1), ("qq", 2), ("industries", 2),
           ("industries ltd", 2), ("industries limited", 2)] := by
      with_unfolding_all rfl
    rw [this]
    exact List.mem_cons_self _ _
  · with_unfolding_all rfl
  · with_unfolding_all rfl
  · decide
  · with_unfolding_all decide

/-! ### Claim theorems for the name-variation generator -/

theorem mem_foldl_of_mem {α β : Type} {f : List α → β → List α}
    (hf : ∀ vs x a, a ∈ vs → a ∈ f vs x) :
    ∀ (l : List β) (acc : List α) (a : α), a ∈ acc → a ∈ l.foldl f acc := by
  intro l
  induction l with
  | nil => intro acc a h; exact h
  | cons x xs ih => intro acc a h; exact ih (f acc x) a (hf acc x a h)

/-- C6 (amended): when the company name ends with a space-delimited legal
suffix (the first such suffix in the fixed order), the variation set
contains the name with every occurrence of the space+suffix removed —
which equals stripping that one trailing suffix exactly when the
space+suffix occurs nowhere else in the name.  The original claim fails
because Python str.replace removes all occurrences, not just the trailing
one. -/
theorem generate_name_variations_contains_replaced_base
    (company_name symbol sfx : String)
    (h : legalSuffixes.find? (fun s => company_name.endsWith (" " ++ s)) = some sfx) :
    (company_name.replace (" " ++ sfx) "") ∈ generate_name_variations company_name symbol := by
  unfold generate_name_variations
  rw [h]
  dsimp only
  rw [List.mem_dedup]
  have habbrev : ∀ (vs : List String) (x : String × List String) (a : String),
      a ∈ vs → a ∈ (if listContains x.1.toLower.toList company_name.toLower.toList
        then vs ++ x.2 else vs) := by
    intro vs x a ha
    split
    · exact List.mem_append_left _ ha
    · exact ha
  have hbase : company_name.replace (" " ++ sfx) ""
      ∈ [symbol, company_name] ++ [company_name.replace (" " ++ sfx) ""] :=
    List.mem_append_right _ (List.mem_singleton.mpr rfl)
  split
  · apply List.mem_append_left
    exact mem_foldl_of_mem habbrev _ _ _
      (List.mem_append_left _ (List.mem_append_left _ hbase))
  · exact mem_foldl_of_mem habbrev _ _ _
      (List.mem_append_left _ (List.mem_append_left _ hbase))

/-- C6 witness: Tata Steel Limited ends with the suffix Limited, and the
variation set contains the stripped base Tata Steel. -/
theorem generate_name_variations_contains_replaced_base_witness :
    ("Tata Steel Limited" : String).replace " Limited" ""
      ∈ generate_name_variations "Tata Steel Limited" "TATASTEEL" :=
  generate_name_variations_contains_replaced_base "Tata Steel Limited" "TATASTEEL" "Limited"
    (by with_unfolding_all rfl)

/-- C6 counterexample: the name Alpha Co Beta Co ends with the
space-delimited suffix Co, but the variation set does not contain
Alpha Co Beta (the name with only the one trailing suffix stripped):
replace removes both occurrences, yielding Alpha Beta instead. -/
theorem generate_name_variations_strip_once_cex :
    legalSuffixes.find? (fun s => ("Alpha Co Beta Co" : String).endsWith (" " ++ s)) = some "Co"
    ∧ ("Alpha Co Beta" : String) ∉ generate_name_variations "Alpha Co Beta Co" "ACB"
    ∧ ("Alpha Beta" : String) ∈ generate_name_variations "Alpha Co Beta Co" "ACB" := by
  refine ⟨by with_unfolding_all rfl, ?_, ?_⟩
  · have : generate_name_variations "Alpha Co Beta Co" "ACB"
        = ["ACB", "Alpha Co Beta Co", "Alpha Beta", "Alpha Beta Ltd", "Alpha Beta Limited"] := by
      with_unfolding_all rfl
    rw [this]
    decide
  · have : generate_name_variations "Alpha Co Beta Co" "ACB"
        = ["ACB", "Alpha Co Beta Co", "Alpha Beta", "Alpha Beta Ltd", "Alpha Beta Limited"] := by
      with_unfolding_all rfl
    rw [this]
    decide

/-! ### Claim theorems for the scorer -/

theorem round2_five : round2 5 = 5 := by with_unfolding_all rfl

/-- C2: on an empty document selection the scorer returns exactly the
neutral dict (E, S, G, composite all 5.0), and in general each returned
pillar score is (the 2-decimal rounding of) 5.0 when the contribution
list of that pillar is empty and of the arithmetic mean of the list
otherwise. -/
theorem esg_scorer_neutral_defaults :
    (∀ sector, calculate_company_score [] sector = ⟨5, 5, 5, 5⟩) ∧
    ∀ (docs : List ScoreInput) (sector : Option String),
      (calculate_company_score docs sector).E
          = round2 (if (pillarContributions docs).1 = [] then 5
                    else listMean (pillarContributions docs).1)
      ∧ (calculate_company_score docs sector).S
          = round2 (if (pillarContributions docs).2.1 = [] then 5
                    else listMean (pillarContributions docs).2.1)
      ∧ (calculate_company_score docs sector).G
          = round2 (if (pillarContributions docs).2.2 = [] then 5
                    else listMean (pillarContributions docs).2.2) := by
  constructor
  · intro sector
    rfl
  · intro docs sector
    cases docs with
    | nil =>
      refine ⟨?_, ?_, ?_⟩ <;>
        simp [calculate_company_score, pillarContributions, round2_five]
    | cons d ds =>
      have hne : (d :: ds : List ScoreInput) ≠ [] := List.cons_ne_nil d ds
      refine ⟨?_, ?_, ?_⟩ <;>
        simp only [calculate_company_score, if_neg hne]

/-- C1: the document loop guard is the Python truthiness test
`if doc.esg_topics and doc.sentiment_score`, so a document whose
sentiment score is present but exactly 0.0 is skipped entirely: with a
single such document carrying E-relevance 0.5, the scorer returns the
neutral 5.0 for E (empty contribution list), although the claimed rule
(base (0+1)*5 = 5 times relevance 0.5 appended to the E list) would give
E = 2.5. -/
theorem esg_scorer_zero_sentiment_document_skipped :
    calculate_company_score [⟨some 0, some [("E", 1/2)]⟩] none = ⟨5, 5, 5, 5⟩
    ∧ pillarContributions [⟨some 0, some [("E", 1/2)]⟩] = ([], [], [])
    ∧ round2 (listMean [((0 : ℚ) + 1) * 5 * (1/2)]) = 5/2
    ∧ (5 : ℚ) ≠ 5/2 := by
  refine ⟨?_, ?_, ?_, ?_⟩
  · with_unfolding_all rfl
  · with_unfolding_all rfl
  · with_unfolding_all rfl
  · with_unfolding_all decide

/-- C3: for a single document with sentiment 0.4 and topics E 0.5, S 0.1,
G 0.0 under the default sector weights, the scorer (with its arithmetic
performed in binary64, as the Python runtime does) returns E = 3.5,
S = 5.0, G = 5.0, and a composite equal to the binary64 value of 4.51:
the float computation yields 4.505000000000001, which rounds at 2
decimals to 4.51.  (Under exact real arithmetic the composite would be
exactly 4.505, a tie; the claimed 4.51 is the floating-point behaviour.) -/
theorem esg_scorer_single_document_example :
    calculate_company_score64
        [⟨some (fl64 (4/10)), some [("E", fl64 (5/10)), ("S", fl64 (1/10)), ("G", 0)]⟩] none
      = ⟨7/2, 5, 5, fl64 (451/100)⟩
    ∧ fl64 (451/100) = mkRat 2538904289930117 562949953421312 := by
  constructor
  · with_unfolding_all rfl
  · with_unfolding_all rfl

/-! ### Helper lemmas for the attribution batch -/

theorem processDoc_fst_of_not_matched (vars : List (String × Nat)) (d : DocumentRec)
    (h : (processDoc vars d).2 = false) : (processDoc vars d).1 = d := by
  unfold processDoc at h ⊢
  cases hm : attemptMatch vars d with
  | none => rfl
  | some r =>
    obtain ⟨cid, m, conf⟩ := r
    rw [hm] at h
    dsimp only at h ⊢
    by_cases hc : conf > (8 : ℚ)/10
    · rw [if_pos hc] at h; cases h
    · rw [if_neg hc]

theorem processDoc_matched_not_selectable (vars : List (String × Nat)) (d : DocumentRec)
    (h : (processDoc vars d).2 = true) : selectable (processDoc vars d).1 = false := by
  unfold processDoc at h ⊢
  cases hm : attemptMatch vars d with
  | none => rw [hm] at h; cases h
  | some r =>
    obtain ⟨cid, m, conf⟩ := r
    rw [hm] at h
    dsimp only at h ⊢
    by_cases hc : conf > (8 : ℚ)/10
    · rw [if_pos hc]
      simp [selectable]
    · rw [if_neg hc] at h; cases h

theorem runBatchAux_count (vars : List (String × Nat)) :
    ∀ (ds : List DocumentRec) (b : Nat),
    (runBatchAux vars b ds).2
      = (((ds.filter fun d => selectable d).take b).filter fun d => (processDoc vars d).2).length := by
  intro ds
  induction ds with
  | nil => intro b; simp [runBatchAux]
  | cons d ds ih =>
    intro b
    by_cases hs : selectable d = true
    · cases b with
      | zero => simp [runBatchAux, hs]
      | succ b =>
        simp only [runBatchAux, if_pos hs]
        rw [List.filter_cons_of_pos hs, List.take_succ_cons, List.filter_cons]
        by_cases hm : (processDoc vars d).2 = true
        · simp [hm, ih b, Nat.add_comm]
        · simp only [Bool.not_eq_true] at hm
          simp [hm, ih b]
    · simp only [Bool.not_eq_true] at hs
      have hfil : ((d :: ds).filter fun d => selectable d) = ds.filter fun d => selectable d :=
        List.filter_cons_of_neg (by simp [hs])
      cases b with
      | zero => simp [runBatchAux, hfil]
      | succ b =>
        simp only [runBatchAux, hs, Bool.false_eq_true, if_false]
        rw [hfil, ih (b + 1)]

theorem runBatchAux_get? (vars : List (String × Nat)) :
    ∀ (ds : List DocumentRec) (b p : Nat),
    (runBatchAux vars b ds).1.get? p
      = (ds.get? p).map fun d =>
          if selectable d = true
              ∧ ((ds.take p).filter fun x => selectable x).length < b
              ∧ (processDoc vars d).2 = true
          then (processDoc vars d).1 else d := by
  intro ds
  induction ds with
  | nil => intro b p; simp [runBatchAux]
  | cons d ds ih =>
    intro b p
    cases b with
    | zero =>
      simp only [runBatchAux]
      cases hget : (d :: ds).get? p with
      | none => simp
      | some x => simp
    | succ b =>
      by_cases hs : selectable d = true
      · cases p with
        | zero =>
          simp only [runBatchAux, if_pos hs]
          by_cases hm : (processDoc vars d).2 = true
          · simp [hs, hm]
          · simp only [Bool.not_eq_true] at hm
            simp [hs, hm, processDoc_fst_of_not_matched vars d hm]
        | succ p =>
          simp only [runBatchAux, if_pos hs]
          rw [List.get?_cons_succ, ih b p, List.get?_cons_succ, List.take_succ_cons,
            List.filter_cons_of_pos hs]
          cases hget : ds.get? p with
          | none => simp
          | some x =>
            simp only [Option.map_some, Option.some.injEq, List.length_cons,
              Nat.add_lt_add_iff_right]
      · simp only [Bool.not_eq_true] at hs
        cases p with
        | zero =>
          simp only [runBatchAux, hs, Bool.false_eq_true, if_false]
          simp [hs]
        | succ p =>
          simp only [runBatchAux, hs, Bool.false_eq_true, if_false]
          rw [List.get?_cons_succ, ih (b + 1) p, List.get?_cons_succ, List.take_succ_cons,
            List.filter_cons_of_neg (by simp [hs])]

/-- C7: the attribution batch selects the first `limit` documents that are
news and unattributed, in order; each selected document is replaced by its
processed version (attributed, with company_id and confidence_score set,
exactly when the title-first/content-fallback match confidence exceeds
0.8, per processDoc) while every other document is untouched; and the
returned count is the number of selected documents so attributed. -/
theorem match_news_batch_characterization (vars : List (String × Nat))
    (db : List DocumentRec) (limit : Nat) :
    (match_news_to_companies vars db limit).2
      = (((db.filter fun d => selectable d).take limit).filter fun d => (processDoc vars d).2).length
    ∧ ∀ p, (match_news_to_companies vars db limit).1.get? p
        = (db.get? p).map fun d =>
            if selectable d = true
                ∧ ((db.take p).filter fun x => selectable x).length < limit
                ∧ (processDoc vars d).2 = true
            then (processDoc vars d).1 else d :=
  ⟨runBatchAux_count vars db limit, fun p => runBatchAux_get? vars db limit p⟩

theorem runBatchAux_count_le (vars : List (String × Nat)) :
    ∀ (ds : List DocumentRec) (b : Nat), (runBatchAux vars b ds).2 ≤ b := by
  intro ds
  induction ds with
  | nil => intro b; simp [runBatchAux]
  | cons d ds ih =>
    intro b
    cases b with
    | zero => simp [runBatchAux]
    | succ b =>
      by_cases hs : selectable d = true
      · simp only [runBatchAux, if_pos hs]
        have := ih b
        split <;> omega
      · simp only [Bool.not_eq_true] at hs
        simp only [runBatchAux, hs, Bool.false_eq_true, if_false]
        exact Nat.le_trans (ih (b + 1)) (le_refl _)

/-- A second run with budget b + k over the output of a first run with
budget b attributes at most k more documents than the first run: documents
attributed by the first run are no longer selectable, and selected
documents the first run could not match still cannot be matched. -/
theorem runBatchAux_twice (vars : List (String × Nat)) :
    ∀ (ds : List DocumentRec) (b k : Nat),
    (runBatchAux vars (b + k) (runBatchAux vars b ds).1).2 ≤ (runBatchAux vars b ds).2 + k := by
  intro ds
  induction ds with
  | nil =>
    intro b k
    simp [runBatchAux]
  | cons d ds ih =>
    intro b k
    cases b with
    | zero =>
      simp only [runBatchAux]
      have := runBatchAux_count_le vars (d :: ds) (0 + k)
      omega
    | succ b =>
      by_cases hs : selectable d = true
      · by_cases hm : (processDoc vars d).2 = true
        · have hns : selectable (processDoc vars d).1 = false :=
            processDoc_matched_not_selectable vars d hm
          simp only [runBatchAux, if_pos hs, hm, if_true]
          rw [show b + 1 + k = (b + k) + 1 from by omega]
          simp only [runBatchAux, hns, Bool.false_eq_true, if_false]
          have h2 := ih b (k + 1)
          rw [show b + (k + 1) = b + k + 1 from by omega] at h2
          omega
        · simp only [Bool.not_eq_true] at hm
          have hfst : (processDoc vars d).1 = d := processDoc_fst_of_not_matched vars d hm
          simp only [runBatchAux, if_pos hs, hm, Bool.false_eq_true, if_false]
          rw [hfst]
          rw [show b + 1 + k = (b + k) + 1 from by omega]
          simp only [runBatchAux, if_pos hs, hm, Bool.false_eq_true, if_false]
          have h2 := ih b k
          omega
      · simp only [Bool.not_eq_true] at hs
        simp only [runBatchAux, hs, Bool.false_eq_true, if_false]
        rw [show b + 1 + k = (b + k) + 1 from by omega]
        simp only [runBatchAux, hs, Bool.false_eq_true, if_false]
        have h2 := ih (b + 1) k
        rw [show b + 1 + k = (b + k) + 1 from by omega] at h2
        exact h2

/-- C9 (amended): running match_news_to_companies twice in succession with
the same limit and no intervening writes attributes at most as many
documents the second time as the first (documents attributed in the first
run are excluded from the second selection).  The original strictly-fewer
claim fails: the counts can be equal, for example when a small limit
leaves matchable documents beyond the first window. -/
theorem match_news_second_run_at_most (vars : List (String × Nat))
    (db : List DocumentRec) (limit : Nat) :
    (match_news_to_companies vars (match_news_to_companies vars db limit).1 limit).2
      ≤ (match_news_to_companies vars db limit).2 := by
  have h := runBatchAux_twice vars db limit 0
  simpa [match_news_to_companies] using h

/-- C9 counterexample: with two matchable news documents and limit 1, the
first run attributes 1 document and the second run again attributes 1 (the
second document, which the first window did not reach): the second run
does not attribute strictly fewer documents. -/
theorem match_news_second_run_not_strictly_fewer_cex :
    (match_news_to_companies
        (buildVariationIndex [⟨1, "TCS", "TCS"⟩, ⟨2, "QQ", "Industries"⟩])
        [⟨"news", none, none, some "TCS wins deal", none⟩,
         ⟨"news", none, none, some "QQ results out", none⟩] 1).2 = 1
    ∧ (match_news_to_companies
        (buildVariationIndex [⟨1, "TCS", "TCS"⟩, ⟨2, "QQ", "Industries"⟩])
        (match_news_to_companies
          (buildVariationIndex [⟨1, "TCS", "TCS"⟩, ⟨2, "QQ", "Industries"⟩])
          [⟨"news", none, none, some "TCS wins deal", none⟩,
           ⟨"news", none, none, some "QQ results out", none⟩] 1).1 1).2 = 1
    ∧ ¬ ((1 : Nat) < 1) := by
  refine ⟨?_, ?_, by omega⟩
  · with_unfolding_all rfl
  · with_unfolding_all rfl

theorem runBatchAuxF_none (vars : List (String × Nat)) :
    ∀ (ds : List DocumentRec) (idx b : Nat),
    runBatchAuxF vars none idx b ds = .ok (runBatchAux vars b ds) := by
  intro ds
  induction ds with
  | nil => intro idx b; simp [runBatchAuxF, runBatchAux]
  | cons d ds ih =>
    intro idx b
    cases b with
    | zero => simp [runBatchAuxF, runBatchAux]
    | succ b =>
      by_cases hs : selectable d = true
      · have hne : ¬ ((none : Option Nat) = some idx) := by simp
        simp only [runBatchAuxF, runBatchAux, if_pos hs, if_neg hne]
        rw [ih (idx + 1) b]
      · simp only [Bool.not_eq_true] at hs
        simp only [runBatchAuxF, runBatchAux, hs, Bool.false_eq_true, if_false]
        rw [ih idx (b + 1)]

theorem runBatchAuxF_fail (vars : List (String × Nat)) :
    ∀ (ds : List DocumentRec) (b idx j : Nat),
    j < ((ds.filter fun d => selectable d).take b).length →
    runBatchAuxF vars (some (idx + j)) idx b ds = .error () := by
  intro ds
  induction ds with
  | nil => intro b idx j h; simp at h
  | cons d ds ih =>
    intro b idx j h
    by_cases hs : selectable d = true
    · cases b with
      | zero => simp at h
      | succ b =>
        cases j with
        | zero =>
          simp only [runBatchAuxF, if_pos hs]
          rw [if_pos (by simp)]
        | succ j =>
          have hne : ¬ (some (idx + (j + 1)) = some idx) := by simp
          simp only [runBatchAuxF, if_pos hs, if_neg hne]
          have hj : j < ((ds.filter fun d => selectable d).take b).length := by
            rw [List.filter_cons_of_pos hs, List.take_succ_cons, List.length_cons] at h
            exact Nat.lt_of_succ_lt_succ h
          rw [show idx + (j + 1) = (idx + 1) + j from by omega]
          rw [ih b (idx + 1) j hj]
    · simp only [Bool.not_eq_true] at hs
      have hfil : ((d :: ds).filter fun d => selectable d) = ds.filter fun d => selectable d :=
        List.filter_cons_of_neg (by simp [hs])
      cases b with
      | zero => simp at h
      | succ b =>
        simp only [runBatchAuxF, hs, Bool.false_eq_true, if_false]
        rw [hfil] at h
        rw [ih (b + 1) idx j h]

/-- C8: if an error is raised while processing any selected document of
the batch, the whole run fails: the error is re-raised to the caller and
the persisted document store is returned unchanged (the session is rolled
back, so no attribution of that run survives and there is no partial
commit and no retry); absent errors, the single commit publishes exactly
the fault-free result. -/
theorem match_news_rollback_on_error (vars : List (String × Nat))
    (db : List DocumentRec) (limit k : Nat) :
    (k < ((db.filter fun d => selectable d).take limit).length →
      match_news_fault vars db limit (some k) = (db, .error ()))
    ∧ match_news_fault vars db limit none
        = ((match_news_to_companies vars db limit).1,
           .ok (match_news_to_companies vars db limit).2) := by
  constructor
  · intro hk
    have h := runBatchAuxF_fail vars db limit 0 k hk
    rw [show (0 : Nat) + k = k from by omega] at h
    unfold match_news_fault
    rw [h]
  · unfold match_news_fault match_news_to_companies
    rw [runBatchAuxF_none]

/-- C8 witness: a concrete batch with a fault at its only selected
document re-raises the error and leaves the store unchanged. -/
theorem match_news_rollback_on_error_witness :
    match_news_fault [] [⟨"news", none, none, some "t", none⟩] 1 (some 0)
      = ([⟨"news", none, none, some "t", none⟩], .error ()) :=
  (match_news_rollback_on_error [] [⟨"news", none, none, some "t", none⟩] 1 0).1
    (by decide)

end ESGIndia
